import Mathlib

/-!
Shallow embedding of the timeline core of Ckrest/PortfolioSite:
* `src/js/timeline-items.js` — item registry, dynamic bundling
  (`computeDisplayStructure`), tag/group connection maps;
* the URL state manager module — debounced, change-detected URL hash
  synchronization (`registerSection`, `updateSectionState`, `scheduleUpdate`,
  `flushUpdate`, `initFromUrl`).

JavaScript values are embedded as follows: a `Set` of strings becomes a
`List String` tested with `contains` (a possibly-`null` set becomes
`Option (List String)`); `null`-able strings become `Option String`;
millisecond timestamps become `Int`; a JS `Map` becomes an association list
in insertion order.  All functions are total, mirroring the fact that the
modelled code paths do not throw.
-/

namespace PortfolioSite

/-- A registry item, as built by `createEntryItem` in timeline-items.js.
`level` is the numeric size class (3 = small), `date` an optional
millisecond timestamp, `isVisible` the mutable filter flag. -/
structure Item where
  id : String
  phaseId : Nat
  tags : List String
  group : Option String
  level : Nat
  date : Option Int
  isVisible : Bool
deriving Repr, DecidableEq

/-- Bundling configuration (`bundleConfig` in timeline-items.js). -/
structure BundleConfig where
  thresholdMs : Int
  currentDate : Int
deriving Repr, DecidableEq

/-- Embeds `isBundleable(item)`: level 3 (small), has a date, and
`currentDate - date > thresholdMs`. -/
def isBundleable (cfg : BundleConfig) (item : Item) : Bool :=
  if item.level ≠ 3 then false
  else match item.date with
    | none => false
    | some d => decide (cfg.currentDate - d > cfg.thresholdMs)

/-- A display unit produced by `computeDisplayStructure`:
`{ type: 'entry', item, id: item.id }` or `{ type: 'bundle', items, id }`. -/
inductive DisplayUnit where
  | entry (item : Item)
  | bundle (items : List Item) (id : String)
deriving Repr, DecidableEq

/-- The `id` field of a display unit (an entry's id is its item's id). -/
def DisplayUnit.uid : DisplayUnit → String
  | .entry item => item.id
  | .bundle _ id => id

/-- The items carried by a display unit. -/
def DisplayUnit.unitItems : DisplayUnit → List Item
  | .entry item => [item]
  | .bundle items _ => items

/-- Embeds `flushBundle` from `computeDisplayStructure`: appends nothing for an
empty pending run, an entry for a singleton run, and a bundle (with id
`bundle-phase{phaseId}-{bundleIndex}`, incrementing the index) for a run of
two or more.  Returns the extended result and the next bundle index. -/
def flushBundle (phaseId : Nat) (pending : List Item)
    (result : List DisplayUnit) (bundleIndex : Nat) :
    List DisplayUnit × Nat :=
  match pending with
  | [] => (result, bundleIndex)
  | [x] => (result ++ [.entry x], bundleIndex)
  | _ => (result ++ [.bundle pending s!"bundle-phase{phaseId}-{bundleIndex}"],
          bundleIndex + 1)

/-- The main loop of `computeDisplayStructure` over the phase's items:
invisible items are skipped without flushing, visible bundleable items are
appended to the pending run, and a visible non-bundleable item flushes the
run and is emitted as an entry; the remaining run is flushed at the end. -/
def displayLoop (cfg : BundleConfig) (phaseId : Nat) :
    List Item → List Item → List DisplayUnit → Nat → List DisplayUnit
  | [], pending, result, bundleIndex =>
      (flushBundle phaseId pending result bundleIndex).1
  | item :: rest, pending, result, bundleIndex =>
      if !item.isVisible then
        displayLoop cfg phaseId rest pending result bundleIndex
      else if isBundleable cfg item then
        displayLoop cfg phaseId rest (pending ++ [item]) result bundleIndex
      else
        let fr := flushBundle phaseId pending result bundleIndex
        displayLoop cfg phaseId rest [] (fr.1 ++ [.entry item]) fr.2

/-- Embeds `computeDisplayStructure(phaseId)`: filter the registry to the phase's
items (in stored order) and run the bundling loop. -/
def computeDisplayStructure (cfg : BundleConfig) (items : List Item)
    (phaseId : Nat) : List DisplayUnit :=
  displayLoop cfg phaseId (items.filter (fun i => i.phaseId == phaseId)) [] [] 0

/-- Embeds `applyFilter(selectedTags)`: `isVisible = noFilter || tags.some(t =>
selectedTags.has(t))`, where `noFilter` is "selectedTags is null or empty".
The possibly-`null` set is an `Option (List String)`. -/
def noFilter (selectedTags : Option (List String)) : Bool :=
  match selectedTags with
  | none => true
  | some l => l.isEmpty

def applyFilter (selectedTags : Option (List String)) (items : List Item) :
    List Item :=
  items.map (fun item =>
    { item with
      isVisible := noFilter selectedTags ||
        item.tags.any (fun t => (selectedTags.getD []).contains t) })

/-! ### Connection engine (timeline-items.js) -/

/-- The per-unit record stored in the connection map. -/
structure ConnectionInfo where
  connected : Bool
  groupId : String
  isStart : Bool
  isEnd : Bool
  gapAbove : Bool
  gapBelow : Bool
deriving Repr, DecidableEq

/-- Embeds `item.tags.some(t => selectedTags.has(t))`. -/
def hasTagMatch (selectedTags : List String) (item : Item) : Bool :=
  item.tags.any (fun t => selectedTags.contains t)

/-- The per-display-item match test of `computeConnectionsByTag`: an entry
matches if its tags intersect the selection; a bundle matches if **any**
child does. -/
def unitMatchesTag (selectedTags : List String) : DisplayUnit → Bool
  | .entry item => hasTagMatch selectedTags item
  | .bundle items _ => items.any (hasTagMatch selectedTags)

/-- JS truthiness of a possibly-null string (`filter(Boolean)`,
`if (!selectedGroup)`): non-null and nonempty. -/
def truthyStr : Option String → Bool
  | none => false
  | some s => !s.isEmpty

/-- The per-display-item match test of `computeConnectionsByGroup`: an entry
matches if `item.group === selectedGroup`; a bundle collects the truthy
child groups and matches only if none was dropped, they are all one value,
and that value is the selected group. -/
def unitMatchesGroup (selectedGroup : String) : DisplayUnit → Bool
  | .entry item => item.group == some selectedGroup
  | .bundle items _ =>
      let groups := ((items.map Item.group).filterMap id).filter
        (fun s => !s.isEmpty)
      groups.length == items.length && groups.toFinset.card == 1 &&
        groups.head? == some selectedGroup

/-- The second pass shared by both connection functions: each match (stored
with its flattened index) gets start/end flags from its position in the
match list and gap flags from the index distance to its neighbours. -/
def mkConnections (groupId : String) (matching : List (Nat × DisplayUnit)) :
    List (String × ConnectionInfo) :=
  matching.enum.map (fun p =>
    (p.2.2.uid,
     { connected := true
       groupId := groupId
       isStart := p.1 == 0
       isEnd := p.1 == matching.length - 1
       gapAbove :=
         if p.1 = 0 then false
         else match matching[p.1 - 1]? with
           | some q => decide (p.2.1 - q.1 > 1)
           | none => false
       gapBelow :=
         match matching[p.1 + 1]? with
         | some q => decide (q.1 - p.2.1 > 1)
         | none => false }))

/-- The first pass of `computeConnectionsByTag`: matching display items
collected in flattened order together with their position index. -/
def tagMatchList (selectedTags : Option (List String))
    (ds : List DisplayUnit) : List (Nat × DisplayUnit) :=
  ds.enum.filter (fun p => unitMatchesTag (selectedTags.getD []) p.2)

/-- The first pass of `computeConnectionsByGroup`. -/
def groupMatchList (selectedGroup : String) (ds : List DisplayUnit) :
    List (Nat × DisplayUnit) :=
  ds.enum.filter (fun p => unitMatchesGroup selectedGroup p.2)

/-- Embeds `computeConnectionsByTag(selectedTags, displayStructure)`: empty map for
a null/empty selection; otherwise collect matches in flattened order with
their indices and annotate them. -/
def computeConnectionsByTag (selectedTags : Option (List String))
    (displayStructure : List DisplayUnit) : List (String × ConnectionInfo) :=
  if noFilter selectedTags then []
  else mkConnections "tag-group" (tagMatchList selectedTags displayStructure)

/-- Embeds `computeConnectionsByGroup(selectedGroup, displayStructure)`: empty map
for a falsy group; otherwise collect matches and annotate them. -/
def computeConnectionsByGroup (selectedGroup : Option String)
    (displayStructure : List DisplayUnit) : List (String × ConnectionInfo) :=
  if !truthyStr selectedGroup then []
  else
    mkConnections (selectedGroup.getD "")
      (groupMatchList (selectedGroup.getD "") displayStructure)

/-! ### URL state synchronizer (url-state.js) -/

/-- The state slice a section carries in the URL: the four recognized keys
`project`, `tags`, `mode`, `group`. -/
structure SectState where
  project : Option String
  tags : List String
  mode : String
  group : Option String
deriving Repr, DecidableEq

/-- A partial update passed to `updateSectionState`: each present key
overwrites the current value on shallow merge (`Object.assign`). -/
structure Patch where
  project : Option (Option String) := none
  tags : Option (List String) := none
  mode : Option String := none
  group : Option (Option String) := none
deriving Repr, DecidableEq

/-- Embeds `Object.assign(section.current, partial)` over the recognized keys. -/
def mergeState (s : SectState) (p : Patch) : SectState :=
  { project := p.project.getD s.project
    tags := p.tags.getD s.tags
    mode := p.mode.getD s.mode
    group := p.group.getD s.group }

/-- A registered section: its defaults and its current state. -/
structure SectionEntry where
  defaults : SectState
  current : SectState
deriving Repr, DecidableEq

/-- JS `Map.get` on an association list. -/
def mapGet (m : List (String × SectionEntry)) (k : String) :
    Option SectionEntry :=
  (m.find? (fun kv => kv.1 == k)).map Prod.snd

/-- JS `Map.set` on an association list: overwrite in place, else append. -/
def mapSet (m : List (String × SectionEntry)) (k : String)
    (v : SectionEntry) : List (String × SectionEntry) :=
  if m.any (fun kv => kv.1 == k) then
    m.map (fun kv => if kv.1 == k then (k, v) else kv)
  else m ++ [(k, v)]

/-- The module-level state of the URL state manager: the section registry,
the active section, whether a debounce timer is pending, the current
`location.hash` (empty or starting with `#`), and the recorded sequence of
`history.replaceState` writes. -/
structure UrlSyncState where
  sections : List (String × SectionEntry)
  activeSection : Option String
  pendingTimer : Bool
  locationHash : String
  writes : List String
deriving Repr, DecidableEq

/-- Serialization of `flushUpdate`'s `URLSearchParams` build: keys are set
in the order project, tags, mode, group, skipping falsy/empty/`"none"`
values, and joined with `&`.  Percent-encoding is not modelled. -/
def buildQuery (s : SectState) : String :=
  let tagsJoined := String.intercalate "," s.tags
  let mode := s.mode
  let ps : List String :=
    (match s.project with
      | some p => if p.isEmpty then [] else [s!"project={p}"]
      | none => []) ++
    (if s.tags.isEmpty then [] else [s!"tags={tagsJoined}"]) ++
    (if mode.isEmpty || mode == "none" then [] else [s!"mode={mode}"]) ++
    (match s.group with
      | some g => if g.isEmpty then [] else [s!"group={g}"]
      | none => [])
  String.intercalate "&" ps

/-- Builds the hash string: `#`, the section name, then `?` and the query
when the query is nonempty. -/
def buildHash (name : String) (s : SectState) : String :=
  let query := buildQuery s
  if query.isEmpty then s!"#{name}" else s!"#{name}?{query}"

/-- The baseline state an unregistered/absent section contributes
(`section?.current || {}` reads every key as falsy). -/
def emptySectState : SectState :=
  { project := none, tags := [], mode := "none", group := none }

/-- Embeds `flushUpdate()`: clear the timer; with no active section stop; otherwise
build the hash from the active section's current state and write it via
`history.replaceState` only when it differs from `location.hash` (the write
also updates `location.hash`). -/
def flushUpdate (st : UrlSyncState) : UrlSyncState :=
  let st := { st with pendingTimer := false }
  match st.activeSection with
  | none => st
  | some name =>
      let state := match mapGet st.sections name with
        | some e => e.current
        | none => emptySectState
      let newHash := buildHash name state
      if st.locationHash ≠ newHash then
        { st with locationHash := newHash, writes := st.writes ++ [newHash] }
      else st

/-- Embeds `scheduleUpdate(immediate)`: immediate calls cancel any pending timer
and flush synchronously; otherwise a timer is started only when none is
pending. -/
def scheduleUpdate (immediate : Bool) (st : UrlSyncState) : UrlSyncState :=
  if immediate then flushUpdate { st with pendingTimer := false }
  else if !st.pendingTimer then { st with pendingTimer := true }
  else st

/-- The pending debounce timer elapsing: runs `flushUpdate`. -/
def fireTimer (st : UrlSyncState) : UrlSyncState :=
  if st.pendingTimer then flushUpdate st else st

/-- Embeds `registerSection(name, {defaults})`: stores defaults and initializes
`current` to a copy of them. -/
def registerSection (name : String) (defaults : SectState)
    (st : UrlSyncState) : UrlSyncState :=
  { st with sections :=
      mapSet st.sections name { defaults := defaults, current := defaults } }

/-- Embeds `updateSectionState(name, partial, opts)`: no-op for an unregistered
name; otherwise shallow-merge the patch into `current`, make the section
active, and schedule a flush. -/
def updateSectionState (name : String) (p : Patch) (immediate : Bool)
    (st : UrlSyncState) : UrlSyncState :=
  match mapGet st.sections name with
  | none => st
  | some e =>
      scheduleUpdate immediate
        { st with
          sections := mapSet st.sections name
            { e with current := mergeState e.current p }
          activeSection := some name }

/-- Splitting a character list at every occurrence of a separator, the
semantics of JS `String.split` with a one-character separator. -/
def splitOnChar (sep : Char) : List Char → List (List Char)
  | [] => [[]]
  | c :: rest =>
      if c = sep then [] :: splitOnChar sep rest
      else match splitOnChar sep rest with
        | [] => [[c]]
        | g :: gs => (c :: g) :: gs

/-- Embeds JS `String.split(sep)` for a one-character separator. -/
def splitStr (sep : Char) (s : String) : List String :=
  (splitOnChar sep s.data).map String.mk

/-- Embeds `hash.slice(1)`: drop the leading `#`. -/
def strDrop1 (s : String) : String := String.mk (s.data.drop 1)

/-- One `k=v` pair of a query string (`URLSearchParams` lookup is by the
text before the first `=`). -/
def splitKV (s : String) : String × String :=
  match splitStr '=' s with
  | [] => (s, "")
  | k :: rest => (k, String.intercalate "=" rest)

/-- Embeds `params.get(key)` over a query string: first value for the key, or
null. -/
def paramsGet (queryString : String) (key : String) : Option String :=
  if queryString.isEmpty then none
  else ((splitStr '&' queryString).map splitKV).lookup key

/-- The state record `initFromUrl` builds from a hash body
`section?k=v&…`. -/
structure ParsedState where
  sect : Option String
  project : Option String
  tags : List String
  mode : String
  group : Option String
deriving Repr, DecidableEq

/-- The four recognized values `initFromUrl` parses from a query string:
`project` and `group` as returned by `params.get`, `tags` split on commas
with empty pieces dropped (`?.split(',').filter(Boolean) || []`), and
`mode` with the JS falsy fallback `params.get('mode') || 'none'` (an
absent key **and** an empty value both fall back to `"none"`). -/
def parseQuery (queryString : String) : SectState :=
  { project := paramsGet queryString "project"
    tags := match paramsGet queryString "tags" with
      | some t => (splitStr ',' t).filter (fun s => !s.isEmpty)
      | none => []
    mode := match paramsGet queryString "mode" with
      | some m => if m.isEmpty then "none" else m
      | none => "none"
    group := paramsGet queryString "group" }

/-- Embeds `initFromUrl()`: parse `location.hash`; with an empty hash return the
baseline parse and change nothing.  Otherwise set the active section and,
when the named section is registered, wholly overwrite its `current` with
the parsed values (`onRestore` is a UI callback, not modelled).  Returns
the parsed state and the new manager state. -/
def initFromUrl (st : UrlSyncState) : ParsedState × UrlSyncState :=
  let hash := strDrop1 st.locationHash
  if hash.isEmpty then
    ({ sect := none, project := none, tags := [], mode := "none",
       group := none }, st)
  else
    let parts := splitStr '?' hash
    let sectionName := parts.headD ""
    let queryString := (parts.drop 1).headD ""
    let q := parseQuery queryString
    let parsed : ParsedState :=
      { sect := some sectionName
        project := q.project
        tags := q.tags
        mode := q.mode
        group := q.group }
    let st := { st with activeSection := some sectionName }
    match mapGet st.sections sectionName with
    | none => (parsed, st)
    | some e =>
        let e2 : SectionEntry :=
          { e with current :=
            { project := parsed.project, tags := parsed.tags,
              mode := parsed.mode, group := parsed.group } }
        (parsed, { st with sections := mapSet st.sections sectionName e2 })

/-! ### Verification apparatus: derived observers and concrete inputs -/

/-- The flattening of a display-structure list to the items it shows, in
order. -/
def itemsOfUnits : List DisplayUnit → List Item
  | [] => []
  | u :: rest => u.unitItems ++ itemsOfUnits rest

/-- The pointwise form of the `groups` pipeline of `unitMatchesGroup`: what
one child contributes to the collected truthy group list. -/
def gsel (it : Item) : Option String :=
  match it.group with
  | some s => if s.isEmpty then none else some s
  | none => none

/-- Shorthand for the connection record of a tag match. -/
def mkInfo (st en ga gb : Bool) : ConnectionInfo :=
  { connected := true, groupId := "tag-group", isStart := st, isEnd := en,
    gapAbove := ga, gapBelow := gb }

/-- The connection record of the single group-X match used as a witness. -/
def exGInfo : ConnectionInfo :=
  { connected := true, groupId := "X", isStart := true, isEnd := true,
    gapAbove := false, gapBelow := false }

/-- A burst of non-immediate `updateSectionState` calls for one section. -/
def runBurst (name : String) (ps : List Patch) (st : UrlSyncState) :
    UrlSyncState :=
  ps.foldl (fun s p => updateSectionState name p false s) st

/-- A bundling configuration under which a date-0 item aged 1000 ms is past
the 100 ms threshold ("old"). -/
def exCfg : BundleConfig := { thresholdMs := 100, currentDate := 1000 }

/-- A phase-1 item with the given id, level and visibility, dated 0. -/
def exItem (id : String) (level : Nat) (isVisible : Bool) : Item :=
  { id := id, phaseId := 1, tags := [], group := none, level := level,
    date := some 0, isVisible := isVisible }

def exA : Item := exItem "A" 3 true
def exB : Item := exItem "B" 3 true
def exBinvis : Item := exItem "B" 3 false
def exCsmall : Item := exItem "C" 3 true
def exClarge : Item := exItem "C" 2 true

/-- A visible non-bundleable entry with the given id and tags. -/
def exTagUnit (id : String) (tags : List String) : DisplayUnit :=
  DisplayUnit.entry
    { id := id, phaseId := 1, tags := tags, group := none, level := 2,
      date := none, isVisible := true }

/-- Five flattened units whose tag matches sit at indices 0, 3 and 4. -/
def ex6 : List DisplayUnit :=
  [exTagUnit "u0" ["X"], exTagUnit "u1" [], exTagUnit "u2" [],
   exTagUnit "u3" ["X"], exTagUnit "u4" ["X"]]

def exGX : Item :=
  { id := "p", phaseId := 1, tags := [], group := some "X", level := 3,
    date := some 0, isVisible := true }

def exGnone : Item :=
  { id := "q", phaseId := 1, tags := [], group := none, level := 3,
    date := some 0, isVisible := true }

/-- A bundle whose children carry groups X and null. -/
def exPartialBundle : DisplayUnit := DisplayUnit.bundle [exGX, exGnone] "b0"

def exTagItem : Item :=
  { id := "t", phaseId := 1, tags := ["x"], group := none, level := 2,
    date := none, isVisible := false }

def exTagItemOn : Item := { exTagItem with isVisible := true }

/-- A fresh synchronizer state. -/
def exUrlStart : UrlSyncState :=
  { sections := [], activeSection := none, pendingTimer := false,
    locationHash := "", writes := [] }

/-- A state with the timeline section registered at baseline defaults. -/
def exReg : UrlSyncState := registerSection "timeline" emptySectState exUrlStart

/-- Five partial updates arriving within one debounce window. -/
def exBurst : List Patch :=
  [{ project := some (some "p1") }, { tags := some ["a"] },
   { mode := some "tag" }, { project := some (some "p2") },
   { group := some (some "G") }]

/-- A state whose registered defaults differ from the parse baseline, with a
URL hash naming the section but carrying only an unrecognized key. -/
def c4reg : UrlSyncState := registerSection "timeline"
  { project := none, tags := [], mode := "tag", group := none }
  { exUrlStart with locationHash := "#timeline?foo=bar" }

/-- A registered, active timeline section with an unwritten URL. -/
def exActive : UrlSyncState :=
  { sections := [("timeline",
      { defaults := emptySectState, current := emptySectState })],
    activeSection := some "timeline", pendingTimer := false,
    locationHash := "", writes := [] }

/-! ## Bundling engine lemmas -/

theorem itemsOfUnits_append (l1 l2 : List DisplayUnit) :
    itemsOfUnits (l1 ++ l2) = itemsOfUnits l1 ++ itemsOfUnits l2 := by
  induction l1 with
  | nil => rfl
  | cons u rest ih => simp [itemsOfUnits, ih]

theorem flushBundle_itemsOf (p : Nat) (pending : List Item)
    (result : List DisplayUnit) (b : Nat) :
    itemsOfUnits (flushBundle p pending result b).1 =
      itemsOfUnits result ++ pending := by
  match pending with
  | [] => simp [flushBundle, itemsOfUnits]
  | [x] =>
      simp [flushBundle, itemsOfUnits_append, itemsOfUnits,
        DisplayUnit.unitItems]
  | x :: y :: rest =>
      simp [flushBundle, itemsOfUnits_append, itemsOfUnits,
        DisplayUnit.unitItems]

theorem displayLoop_itemsOf (cfg : BundleConfig) (p : Nat) (l : List Item) :
    ∀ (pending : List Item) (result : List DisplayUnit) (b : Nat),
    itemsOfUnits (displayLoop cfg p l pending result b) =
      itemsOfUnits result ++ pending ++ l.filter (fun i => i.isVisible) := by
  induction l with
  | nil =>
      intro pending result b
      simp [displayLoop, flushBundle_itemsOf]
  | cons item rest ih =>
      intro pending result b
      by_cases hv : item.isVisible
      · by_cases hb : isBundleable cfg item
        · simp [displayLoop, hv, hb, ih, List.filter_cons, List.append_assoc]
        · simp [displayLoop, hv, hb, ih, List.filter_cons,
            flushBundle_itemsOf, itemsOfUnits_append, itemsOfUnits,
            DisplayUnit.unitItems, List.append_assoc]
      · simp [displayLoop, hv, ih, List.filter_cons]

/-- C10: `computeDisplayStructure(phaseId)` shows exactly the visible items
of that phase — each exactly once, none of another phase and none
invisible, in stored registry order. -/
theorem displayStructure_items_exact (cfg : BundleConfig)
    (items : List Item) (phaseId : Nat) :
    itemsOfUnits (computeDisplayStructure cfg items phaseId) =
      items.filter (fun i => i.phaseId == phaseId && i.isVisible) := by
  rw [computeDisplayStructure, displayLoop_itemsOf]
  simp only [itemsOfUnits, List.nil_append]
  rw [List.filter_filter]
  apply List.filter_congr
  intro a _
  exact Bool.and_comm _ _

theorem flushBundle_sizes (p : Nat) (pending : List Item)
    (result : List DisplayUnit) (b : Nat)
    (h : ∀ u ∈ result, ∀ its id, u = DisplayUnit.bundle its id →
      2 ≤ its.length) :
    ∀ u ∈ (flushBundle p pending result b).1, ∀ its id,
      u = DisplayUnit.bundle its id → 2 ≤ its.length := by
  match pending with
  | [] => simpa [flushBundle] using h
  | [x] =>
      intro u hu its id he
      rw [flushBundle] at hu
      rcases List.mem_append.1 hu with hm | hm
      · exact h u hm its id he
      · rw [List.mem_singleton] at hm
        subst hm
        exact absurd he (by simp)
  | x :: y :: rest =>
      intro u hu its id he
      simp only [flushBundle] at hu
      rcases List.mem_append.1 hu with hm | hm
      · exact h u hm its id he
      · rw [List.mem_singleton] at hm
        subst hm
        cases he
        simp only [List.length_cons]
        omega

theorem displayLoop_sizes (cfg : BundleConfig) (p : Nat) (l : List Item) :
    ∀ (pending : List Item) (result : List DisplayUnit) (b : Nat),
    (∀ u ∈ result, ∀ its id, u = DisplayUnit.bundle its id →
      2 ≤ its.length) →
    ∀ u ∈ displayLoop cfg p l pending result b, ∀ its id,
      u = DisplayUnit.bundle its id → 2 ≤ its.length := by
  induction l with
  | nil =>
      intro pending result b h
      rw [displayLoop]
      exact flushBundle_sizes p pending result b h
  | cons item rest ih =>
      intro pending result b h
      by_cases hv : item.isVisible
      · by_cases hb : isBundleable cfg item
        · rw [displayLoop]
          simp only [hv, hb, Bool.not_true, if_neg, if_pos, ite_false,
            ite_true]
          exact ih (pending ++ [item]) result b h
        · rw [displayLoop]
          simp only [hv, hb, Bool.not_true, ite_false]
          apply ih
          intro u hu its id he
          rcases List.mem_append.1 hu with hm | hm
          · exact flushBundle_sizes p pending result b h u hm its id he
          · rw [List.mem_singleton] at hm
            subst hm
            exact absurd he (by simp)
      · rw [displayLoop]
        simp only [hv, Bool.not_false, ite_true]
        exact ih pending result b h

/-- C7: no element of `computeDisplayStructure(phaseId)` is a bundle with
fewer than 2 members — a pending run of one item is emitted as an entry. -/
theorem no_singleton_bundles (cfg : BundleConfig) (items : List Item)
    (phaseId : Nat) (u : DisplayUnit)
    (hu : u ∈ computeDisplayStructure cfg items phaseId)
    (its : List Item) (id : String)
    (he : u = DisplayUnit.bundle its id) : 2 ≤ its.length := by
  refine displayLoop_sizes cfg phaseId _ [] [] 0 ?_ u hu its id he
  intro v hv
  exact absurd hv (List.not_mem_nil v)

/-- Witness for C7: the two-member bundle produced from `[exA, exB, exClarge]`
satisfies the bound. -/
theorem no_singleton_bundles_witness : 2 ≤ ([exA, exB] : List Item).length :=
  no_singleton_bundles exCfg [exA, exB, exClarge] 1
    (DisplayUnit.bundle [exA, exB] "bundle-phase1-0") (by decide)
    [exA, exB] "bundle-phase1-0" rfl

theorem displayLoop_visible_filter (cfg : BundleConfig) (p : Nat)
    (l : List Item) :
    ∀ (pending : List Item) (result : List DisplayUnit) (b : Nat),
    displayLoop cfg p l pending result b =
      displayLoop cfg p (l.filter (fun i => i.isVisible)) pending result b := by
  induction l with
  | nil => intro pending result b; rfl
  | cons item rest ih =>
      intro pending result b
      by_cases hv : item.isVisible
      · by_cases hb : isBundleable cfg item
        · simp only [displayLoop, List.filter_cons, hv, hb, Bool.not_true,
            ite_true, ite_false]
          exact ih (pending ++ [item]) result b
        · simp only [displayLoop, List.filter_cons, hv, hb, Bool.not_true,
            ite_true, ite_false]
          exact ih [] _ _
      · simp only [displayLoop, List.filter_cons, hv, Bool.not_false,
          ite_true, ite_false]
        exact ih pending result b

/-- C1: the scan of `computeDisplayStructure` treats invisible items as
absorbed, never as run breaks — removing them first changes nothing — and
on the spec's two examples it produces `Bundle[A,C]` (B invisible, not a
split point) and `[Bundle[A,B], Entry[C]]` (C large flushes the run). -/
theorem displayStructure_run_semantics :
    (∀ (cfg : BundleConfig) (items : List Item) (phaseId : Nat),
      computeDisplayStructure cfg items phaseId =
        computeDisplayStructure cfg (items.filter (fun i => i.isVisible))
          phaseId) ∧
    computeDisplayStructure exCfg [exA, exBinvis, exCsmall] 1 =
      [DisplayUnit.bundle [exA, exCsmall] "bundle-phase1-0"] ∧
    computeDisplayStructure exCfg [exA, exB, exClarge] 1 =
      [DisplayUnit.bundle [exA, exB] "bundle-phase1-0",
       DisplayUnit.entry exClarge] := by
  refine ⟨?_, by decide, by decide⟩
  intro cfg items phaseId
  rw [computeDisplayStructure, computeDisplayStructure,
    displayLoop_visible_filter, List.filter_filter, List.filter_filter]
  congr 1
  apply List.filter_congr
  intro a _
  exact Bool.and_comm _ _

/-- C5: after `applyFilter(S)` each item is visible iff there is no filter
(null or empty selection) or one of its tags is selected; and applying the
same selection twice equals applying it once. -/
theorem applyFilter_spec :
    (∀ (S : Option (List String)) (items : List Item) (it : Item),
      it ∈ applyFilter S items →
      (it.isVisible = true ↔
        noFilter S = true ∨ ∃ t ∈ it.tags, t ∈ S.getD [])) ∧
    (∀ (S : Option (List String)) (items : List Item),
      applyFilter S (applyFilter S items) = applyFilter S items) := by
  constructor
  · intro S items it hit
    rw [applyFilter, List.mem_map] at hit
    obtain ⟨a, _, ha⟩ := hit
    subst ha
    simp [List.any_eq_true, List.elem_iff, List.contains]
  · intro S items
    simp only [applyFilter, List.map_map]
    apply List.map_congr_left
    intro a _
    rfl

/-- Witness for C5: the single item of `[exTagItem]` becomes visible under
selection `{x}` because its tag `x` is selected. -/
theorem applyFilter_spec_witness :
    exTagItemOn.isVisible = true ↔
      noFilter (some ["x"]) = true ∨
        ∃ t ∈ exTagItemOn.tags, t ∈ (some ["x"] : Option (List String)).getD [] :=
  applyFilter_spec.1 (some ["x"]) [exTagItem] exTagItemOn (by decide)

/-- C9: an empty or absent tag selection and an absent or falsy group both
yield an empty connection map on every structure; both operations are total
functions of their inputs (nothing throws). -/
theorem empty_selection_empty_map (ds : List DisplayUnit) :
    computeConnectionsByTag none ds = [] ∧
    computeConnectionsByTag (some []) ds = [] ∧
    computeConnectionsByGroup none ds = [] ∧
    computeConnectionsByGroup (some "") ds = [] :=
  ⟨rfl, rfl, rfl, rfl⟩

/-! ## Connection engine lemmas -/

theorem mkConnections_fst (gid : String)
    (matching : List (Nat × DisplayUnit)) :
    (mkConnections gid matching).map Prod.fst =
      matching.map (fun q => q.2.uid) := by
  rw [mkConnections, List.map_map]
  have h2 : matching.enum.map (Prod.snd) = matching := List.enum_map_snd _
  calc matching.enum.map
        (Prod.fst ∘ fun p => ((p.2.2.uid : String),
          ({ connected := true, groupId := gid, isStart := p.1 == 0,
             isEnd := p.1 == matching.length - 1,
             gapAbove := if p.1 = 0 then false
               else match matching[p.1 - 1]? with
                 | some q => decide (p.2.1 - q.1 > 1)
                 | none => false,
             gapBelow := match matching[p.1 + 1]? with
               | some q => decide (q.1 - p.2.1 > 1)
               | none => false } : ConnectionInfo)))
      = matching.enum.map (fun p => p.2.2.uid) := rfl
    _ = (matching.enum.map Prod.snd).map (fun q => q.2.uid) := by
        rw [List.map_map]; rfl
    _ = matching.map (fun q => q.2.uid) := by rw [h2]

theorem enumFrom_filter_map_snd (f : DisplayUnit → Bool)
    (l : List DisplayUnit) :
    ∀ n : Nat,
    ((l.enumFrom n).filter (fun p => f p.2)).map Prod.snd = l.filter f := by
  induction l with
  | nil => intro n; rfl
  | cons u rest ih =>
      intro n
      by_cases hf : f u
      · simp [List.enumFrom_cons, List.filter_cons, hf, ih]
      · simp [List.enumFrom_cons, List.filter_cons, hf, ih]

theorem tagMatchList_units (S : Option (List String))
    (ds : List DisplayUnit) :
    (tagMatchList S ds).map Prod.snd =
      ds.filter (unitMatchesTag (S.getD [])) := by
  rw [tagMatchList, List.enum]
  exact enumFrom_filter_map_snd _ ds 0

theorem groupMatchList_units (g : String) (ds : List DisplayUnit) :
    (groupMatchList g ds).map Prod.snd = ds.filter (unitMatchesGroup g) := by
  rw [groupMatchList, List.enum]
  exact enumFrom_filter_map_snd _ ds 0

theorem unitMatchesTag_nil (u : DisplayUnit) : unitMatchesTag [] u = false := by
  cases u <;> simp [unitMatchesTag, hasTagMatch, List.contains]

theorem rawGroups_eq (items : List Item) :
    ((items.map Item.group).filterMap id).filter (fun s => !s.isEmpty) =
      items.filterMap gsel := by
  induction items with
  | nil => rfl
  | cons it rest ih =>
      cases hg : it.group with
      | none => simpa [List.filterMap_cons, gsel, hg] using ih
      | some s =>
          by_cases hs : s.isEmpty
          · simpa [List.filterMap_cons, List.filter_cons, gsel, hg, hs]
              using ih
          · simpa [List.filterMap_cons, List.filter_cons, gsel, hg, hs]
              using ih

theorem filterMap_length_eq {α β : Type} (f : α → Option β) (l : List α) :
    (l.filterMap f).length = l.length ↔ ∀ a ∈ l, (f a).isSome := by
  induction l with
  | nil => simp
  | cons a rest ih =>
      cases hfa : f a with
      | none =>
          simp only [List.filterMap_cons, hfa, List.length_cons]
          constructor
          · intro h
            have hle := List.length_filterMap_le f rest
            omega
          · intro h
            have := h a (List.mem_cons_self a rest)
            rw [hfa] at this
            simp at this
      | some b =>
          simp only [List.filterMap_cons, hfa, List.length_cons]
          constructor
          · intro h a' ha'
            rcases List.mem_cons.1 ha' with h' | h'
            · subst h'; rw [hfa]; rfl
            · exact (ih.1 (by omega)) a' h'
          · intro h
            have := ih.2 (fun a' ha' => h a' (List.mem_cons_of_mem _ ha'))
            omega

theorem filterMap_const_some {α β : Type} (f : α → Option β) (b : β)
    (l : List α) (h : ∀ a ∈ l, f a = some b) :
    l.filterMap f = List.replicate l.length b := by
  induction l with
  | nil => rfl
  | cons a rest ih =>
      have ha := h a (List.mem_cons_self a rest)
      simp only [List.filterMap_cons, ha, List.length_cons,
        List.replicate_succ]
      rw [ih (fun a' ha' => h a' (List.mem_cons_of_mem _ ha'))]

theorem gsel_eq_some_iff (it : Item) (g : String) (hge : g.isEmpty = false) :
    gsel it = some g ↔ it.group = some g := by
  rw [gsel]
  cases hgr : it.group with
  | none => simp
  | some s0 =>
      by_cases hs0 : s0.isEmpty
      · simp only [hs0, ite_true]
        constructor
        · intro h; exact absurd h (by simp)
        · intro h
          rw [Option.some_inj] at h
          rw [h] at hs0
          rw [hs0] at hge
          exact absurd hge (by simp)
      · simp [hs0]

theorem bundle_group_match_iff (g : String) (hg : g ≠ "") (its : List Item)
    (id : String) :
    unitMatchesGroup g (DisplayUnit.bundle its id) = true ↔
      its ≠ [] ∧ ∀ it ∈ its, it.group = some g := by
  have hge : g.isEmpty = false := by
    rcases h : g.isEmpty with _ | _
    · rfl
    · exact absurd ((String.isEmpty_iff g).1 h) hg
  rw [unitMatchesGroup]
  simp only [Bool.and_eq_true, beq_iff_eq]
  rw [rawGroups_eq]
  constructor
  · rintro ⟨⟨hlen, hcard⟩, hhead⟩
    have hsome := (filterMap_length_eq gsel its).1 hlen
    obtain ⟨a, ha⟩ := Finset.card_eq_one.1 hcard
    have hmemg : g ∈ its.filterMap gsel := by
      cases hG : its.filterMap gsel with
      | nil => rw [hG] at hhead; exact absurd hhead (by simp)
      | cons x t =>
          rw [hG] at hhead
          simp only [List.head?_cons, Option.some_inj] at hhead
          rw [← hhead]
          exact List.mem_cons_self x t
    have hag : a = g := by
      have hm := List.mem_toFinset.2 hmemg
      rw [ha, Finset.mem_singleton] at hm
      exact hm.symm
    have hallG : ∀ x ∈ its.filterMap gsel, x = g := by
      intro x hx
      have hm := List.mem_toFinset.2 hx
      rw [ha, Finset.mem_singleton] at hm
      rw [hm, hag]
    refine ⟨?_, ?_⟩
    · intro hnil
      subst hnil
      exact absurd hhead (by simp)
    · intro it hit
      obtain ⟨s, hs⟩ := Option.isSome_iff_exists.1 (hsome it hit)
      have hsg := hallG s (List.mem_filterMap.2 ⟨it, hit, hs⟩)
      rw [hsg] at hs
      exact (gsel_eq_some_iff it g hge).1 hs
  · rintro ⟨hne, hall⟩
    have hsel : ∀ it ∈ its, gsel it = some g := fun it hit =>
      (gsel_eq_some_iff it g hge).2 (hall it hit)
    rw [filterMap_const_some gsel g its hsel]
    have hn : its.length ≠ 0 := by
      intro h0
      exact hne (List.length_eq_zero.1 h0)
    refine ⟨⟨?_, ?_⟩, ?_⟩
    · exact List.length_replicate _ _
    · rw [List.toFinset_replicate_of_ne_zero hn]
      exact Finset.card_singleton _
    · cases hl : its.length with
      | zero => exact absurd hl hn
      | succ m => rw [List.replicate_succ]; rfl

/-- C2: the tag map's keys are the ids of the units where **some** child
carries a selected tag (OR), the group map's keys are the ids of the units
where **all** children carry the one selected group (AND); a bundle whose
children have groups X and null is absent from the group-X map. -/
theorem connection_or_and_semantics :
    (∀ (S : Option (List String)) (ds : List DisplayUnit),
      (computeConnectionsByTag S ds).map Prod.fst =
        (ds.filter (unitMatchesTag (S.getD []))).map DisplayUnit.uid) ∧
    (∀ (g : String) (ds : List DisplayUnit), g ≠ "" →
      (computeConnectionsByGroup (some g) ds).map Prod.fst =
        (ds.filter (unitMatchesGroup g)).map DisplayUnit.uid) ∧
    (∀ (S : List String) (its : List Item) (id : String),
      unitMatchesTag S (DisplayUnit.bundle its id) = true ↔
        ∃ it ∈ its, ∃ t ∈ it.tags, t ∈ S) ∧
    (∀ (g : String) (its : List Item) (id : String), g ≠ "" →
      (unitMatchesGroup g (DisplayUnit.bundle its id) = true ↔
        its ≠ [] ∧ ∀ it ∈ its, it.group = some g)) ∧
    computeConnectionsByGroup (some "X") [exPartialBundle] = [] := by
  refine ⟨?_, ?_, ?_, ?_, by decide⟩
  · intro S ds
    by_cases hnf : noFilter S
    · have hS : S.getD [] = [] := by
        cases S with
        | none => rfl
        | some l =>
            rw [noFilter] at hnf
            rw [Option.getD_some, List.isEmpty_iff.1 hnf]
      rw [computeConnectionsByTag, if_pos hnf, hS]
      rw [List.filter_eq_nil_iff.mpr
        (fun u _ => by rw [unitMatchesTag_nil u]; exact Bool.false_ne_true)]
      rfl
    · rw [computeConnectionsByTag, if_neg hnf, mkConnections_fst,
        ← tagMatchList_units, List.map_map]
      rfl
  · intro g ds hg
    have hge : g.isEmpty = false := by
      rcases h : g.isEmpty with _ | _
      · rfl
      · exact absurd ((String.isEmpty_iff g).1 h) hg
    have ht : (!truthyStr (some g)) = false := by
      rw [truthyStr, hge]
      rfl
    rw [computeConnectionsByGroup, if_neg (by rw [ht]; exact Bool.false_ne_true),
      Option.getD_some, mkConnections_fst, ← groupMatchList_units,
      List.map_map]
    rfl
  · intro S its id
    simp [unitMatchesTag, hasTagMatch, List.any_eq_true, List.elem_iff,
      List.contains]
  · intro g its id hg
    exact bundle_group_match_iff g hg its id

/-- Witness for C2: instantiates the AND-side characterizations at the
selected group `X` and the `{X, null}` bundle. -/
theorem connection_or_and_semantics_witness :
    ((computeConnectionsByGroup (some "X") [exPartialBundle]).map Prod.fst =
      ([exPartialBundle].filter (unitMatchesGroup "X")).map DisplayUnit.uid) ∧
    (unitMatchesGroup "X" (DisplayUnit.bundle [exGX, exGnone] "b0") = true ↔
      ([exGX, exGnone] : List Item) ≠ [] ∧
        ∀ it ∈ ([exGX, exGnone] : List Item), it.group = some "X") :=
  ⟨connection_or_and_semantics.2.1 "X" [exPartialBundle] (by decide),
   connection_or_and_semantics.2.2.2.1 "X" [exGX, exGnone] "b0" (by decide)⟩

theorem mkConnections_getElem (gid : String)
    (m : List (Nat × DisplayUnit)) (i : Nat) (q : Nat × DisplayUnit)
    (h : m[i]? = some q) :
    (mkConnections gid m)[i]? = some (q.2.uid,
      { connected := true
        groupId := gid
        isStart := i == 0
        isEnd := i == m.length - 1
        gapAbove := if i = 0 then false
          else match m[i - 1]? with
            | some r => decide (q.1 - r.1 > 1)
            | none => false
        gapBelow := match m[i + 1]? with
          | some r => decide (r.1 - q.1 > 1)
          | none => false }) := by
  rw [mkConnections, List.getElem?_map, List.getElem?_enum, h]
  rfl

theorem mkConnections_markers (gid : String)
    (m : List (Nat × DisplayUnit)) (i : Nat) (x : String × ConnectionInfo)
    (hx : (mkConnections gid m)[i]? = some x) :
    (x.2.isStart = true ↔ i = 0) ∧
    (x.2.isEnd = true ↔ i = m.length - 1) ∧
    (x.2.gapAbove = true ↔ ∃ a b : Nat,
      (m.map Prod.fst)[i - 1]? = some a ∧ (m.map Prod.fst)[i]? = some b ∧
      0 < i ∧ b - a > 1) ∧
    (x.2.gapBelow = true ↔ ∃ a b : Nat,
      (m.map Prod.fst)[i]? = some a ∧ (m.map Prod.fst)[i + 1]? = some b ∧
      b - a > 1) := by
  have hlen : i < (mkConnections gid m).length :=
    (List.getElem?_eq_some.1 hx).1
  have hm : i < m.length := by
    simpa [mkConnections, List.length_map, List.enum_length] using hlen
  obtain ⟨q, hq⟩ : ∃ q, m[i]? = some q :=
    ⟨_, List.getElem?_eq_getElem hm⟩
  have hval := mkConnections_getElem gid m i q hq
  rw [hval] at hx
  obtain rfl : x = _ := (Option.some_inj.1 hx).symm
  refine ⟨by simp, by simp, ?_, ?_⟩
  · by_cases hi : i = 0
    · subst hi
      simp
    · obtain ⟨r, hr⟩ : ∃ r, m[i - 1]? = some r :=
        ⟨_, List.getElem?_eq_getElem (by omega)⟩
      rw [if_neg hi]
      simp only [hr, List.getElem?_map, hq, Option.map_some',
        decide_eq_true_eq]
      constructor
      · intro hd
        exact ⟨r.1, q.1, rfl, rfl, Nat.pos_of_ne_zero hi, hd⟩
      · rintro ⟨a, b, ha, hb, _, hab⟩
        rw [← Option.some_inj.1 ha, ← Option.some_inj.1 hb] at hab
        exact hab
  · by_cases hnext : i + 1 < m.length
    · obtain ⟨r, hr⟩ : ∃ r, m[i + 1]? = some r :=
        ⟨_, List.getElem?_eq_getElem hnext⟩
      simp only [hr, List.getElem?_map, hq, Option.map_some',
        decide_eq_true_eq]
      constructor
      · intro hd
        exact ⟨q.1, r.1, rfl, rfl, hd⟩
      · rintro ⟨a, b, ha, hb, hab⟩
        rw [← Option.some_inj.1 ha, ← Option.some_inj.1 hb] at hab
        exact hab
    · have hr : m[i + 1]? = none := List.getElem?_eq_none (by omega)
      simp only [hr, List.getElem?_map, Option.map_none']
      constructor
      · intro hfalse
        exact absurd hfalse (by simp)
      · rintro ⟨a, b, _, hb, _⟩
        exact absurd hb (by simp)

/-- C6: in the maps produced by `computeConnectionsByTag` and by
`computeConnectionsByGroup`, `isStart` holds exactly at the first match and
`isEnd` at the last; `gapAbove` holds exactly when the previous match's
flattened index is more than 1 below this one's, and `gapBelow`
symmetrically toward the next; on the concrete structure with tag matches
at flattened indices 0, 3 and 4 the markers are exactly as the spec's
example states. -/
theorem connection_gap_markers :
    (∀ (S : Option (List String)) (ds : List DisplayUnit) (i : Nat)
       (x : String × ConnectionInfo),
      (computeConnectionsByTag S ds)[i]? = some x →
      ((x.2.isStart = true ↔ i = 0) ∧
       (x.2.isEnd = true ↔ i = (tagMatchList S ds).length - 1) ∧
       (x.2.gapAbove = true ↔ ∃ a b : Nat,
         ((tagMatchList S ds).map Prod.fst)[i - 1]? = some a ∧
         ((tagMatchList S ds).map Prod.fst)[i]? = some b ∧
         0 < i ∧ b - a > 1) ∧
       (x.2.gapBelow = true ↔ ∃ a b : Nat,
         ((tagMatchList S ds).map Prod.fst)[i]? = some a ∧
         ((tagMatchList S ds).map Prod.fst)[i + 1]? = some b ∧
         b - a > 1))) ∧
    (∀ (g : Option String) (ds : List DisplayUnit) (i : Nat)
       (x : String × ConnectionInfo),
      (computeConnectionsByGroup g ds)[i]? = some x →
      ((x.2.isStart = true ↔ i = 0) ∧
       (x.2.isEnd = true ↔ i = (groupMatchList (g.getD "") ds).length - 1) ∧
       (x.2.gapAbove = true ↔ ∃ a b : Nat,
         ((groupMatchList (g.getD "") ds).map Prod.fst)[i - 1]? = some a ∧
         ((groupMatchList (g.getD "") ds).map Prod.fst)[i]? = some b ∧
         0 < i ∧ b - a > 1) ∧
       (x.2.gapBelow = true ↔ ∃ a b : Nat,
         ((groupMatchList (g.getD "") ds).map Prod.fst)[i]? = some a ∧
         ((groupMatchList (g.getD "") ds).map Prod.fst)[i + 1]? = some b ∧
         b - a > 1))) ∧
    computeConnectionsByTag (some ["X"]) ex6 =
      [("u0", mkInfo true false false true),
       ("u3", mkInfo false false true false),
       ("u4", mkInfo false true false false)] := by
  refine ⟨?_, ?_, by decide⟩
  · intro S ds i x hx
    by_cases hnf : noFilter S
    · rw [computeConnectionsByTag, if_pos hnf] at hx
      exact absurd hx (by simp)
    · rw [computeConnectionsByTag, if_neg hnf] at hx
      exact mkConnections_markers "tag-group" (tagMatchList S ds) i x hx
  · intro g ds i x hx
    by_cases ht : (!truthyStr g) = true
    · rw [computeConnectionsByGroup, if_pos ht] at hx
      exact absurd hx (by simp)
    · rw [computeConnectionsByGroup, if_neg ht] at hx
      exact mkConnections_markers (g.getD "")
        (groupMatchList (g.getD "") ds) i x hx

/-- Witness for C6: the markers of the middle tag match (position 1,
flattened index 3) of the concrete structure, and of an isolated group
match at position 0. -/
theorem connection_gap_markers_witness :
    (((("u3", mkInfo false false true false) :
        String × ConnectionInfo).2.isStart = true ↔ (1 : Nat) = 0) ∧
     ((("u3", mkInfo false false true false) :
        String × ConnectionInfo).2.isEnd = true ↔
        (1 : Nat) = (tagMatchList (some ["X"]) ex6).length - 1) ∧
     ((("u3", mkInfo false false true false) :
        String × ConnectionInfo).2.gapAbove = true ↔ ∃ a b : Nat,
        ((tagMatchList (some ["X"]) ex6).map Prod.fst)[(1 : Nat) - 1]? =
          some a ∧
        ((tagMatchList (some ["X"]) ex6).map Prod.fst)[(1 : Nat)]? =
          some b ∧
        0 < (1 : Nat) ∧ b - a > 1) ∧
     ((("u3", mkInfo false false true false) :
        String × ConnectionInfo).2.gapBelow = true ↔ ∃ a b : Nat,
        ((tagMatchList (some ["X"]) ex6).map Prod.fst)[(1 : Nat)]? =
          some a ∧
        ((tagMatchList (some ["X"]) ex6).map Prod.fst)[(1 : Nat) + 1]? =
          some b ∧
        b - a > 1)) ∧
    (((("p", exGInfo) :
        String × ConnectionInfo).2.isStart = true ↔ (0 : Nat) = 0) ∧
     ((("p", exGInfo) :
        String × ConnectionInfo).2.isEnd = true ↔
        (0 : Nat) =
          (groupMatchList "X" [DisplayUnit.entry exGX]).length - 1) ∧
     ((("p", exGInfo) :
        String × ConnectionInfo).2.gapAbove = true ↔ ∃ a b : Nat,
        ((groupMatchList "X"
          [DisplayUnit.entry exGX]).map Prod.fst)[(0 : Nat) - 1]? =
          some a ∧
        ((groupMatchList "X"
          [DisplayUnit.entry exGX]).map Prod.fst)[(0 : Nat)]? = some b ∧
        0 < (0 : Nat) ∧ b - a > 1) ∧
     ((("p", exGInfo) :
        String × ConnectionInfo).2.gapBelow = true ↔ ∃ a b : Nat,
        ((groupMatchList "X"
          [DisplayUnit.entry exGX]).map Prod.fst)[(0 : Nat)]? = some a ∧
        ((groupMatchList "X"
          [DisplayUnit.entry exGX]).map Prod.fst)[(0 : Nat) + 1]? =
          some b ∧
        b - a > 1)) :=
  ⟨connection_gap_markers.1 (some ["X"]) ex6 1
    ("u3", mkInfo false false true false) (by decide),
   connection_gap_markers.2.1 (some "X") [DisplayUnit.entry exGX] 0
    ("p", exGInfo) (by decide)⟩

/-! ## URL synchronizer lemmas -/

theorem mapGet_map_repl (m : List (String × SectionEntry)) (k : String)
    (v : SectionEntry) :
    mapGet (m.map (fun kv => if kv.1 == k then (k, v) else kv)) k =
      if m.any (fun kv => kv.1 == k) then some v else none := by
  induction m with
  | nil => rfl
  | cons kv rest ih =>
      by_cases hk : kv.1 = k
      · simp only [List.map_cons, hk, beq_self_eq_true, ite_true,
          List.any_cons, Bool.true_or]
        rw [mapGet, List.find?_cons_of_pos _ (by simp)]
        rfl
      · have hkb : (kv.1 == k) = false := beq_eq_false_iff_ne.2 hk
        simp only [List.map_cons, hkb, ite_false, List.any_cons,
          Bool.false_or]
        rw [mapGet, List.find?_cons_of_neg _ (by simp [hkb])]
        exact ih

theorem mapGet_append_none (m l' : List (String × SectionEntry)) (k : String)
    (h : m.any (fun kv => kv.1 == k) = false) :
    mapGet (m ++ l') k = mapGet l' k := by
  induction m with
  | nil => rfl
  | cons kv rest ih =>
      rw [List.any_cons, Bool.or_eq_false_iff] at h
      rw [List.cons_append, mapGet,
        List.find?_cons_of_neg _ (by simp [h.1])]
      exact ih h.2

theorem mapGet_mapSet_self (m : List (String × SectionEntry)) (k : String)
    (v : SectionEntry) : mapGet (mapSet m k v) k = some v := by
  rw [mapSet]
  by_cases h : m.any (fun kv => kv.1 == k)
  · rw [if_pos h, mapGet_map_repl, if_pos h]
  · rw [if_neg h, mapGet_append_none m _ k (Bool.not_eq_true _ ▸ h), mapGet,
      List.find?_cons_of_pos _ (by simp)]
    rfl

theorem mapGet_map_repl_ne (m : List (String × SectionEntry))
    (k k' : String) (v : SectionEntry) (hne : k ≠ k') :
    mapGet (m.map (fun kv => if kv.1 == k' then (k', v) else kv)) k =
      mapGet m k := by
  induction m with
  | nil => rfl
  | cons kv rest ih =>
      by_cases hk : kv.1 = k'
      · have h1 : ((k', v).1 == k) = false :=
          beq_eq_false_iff_ne.2 (fun h => hne h.symm)
        have h2 : (kv.1 == k) = false :=
          beq_eq_false_iff_ne.2 (by rw [hk]; exact fun h => hne h.symm)
        simp only [List.map_cons, hk, beq_self_eq_true, ite_true]
        rw [mapGet, List.find?_cons_of_neg _ (by simp [h1]), mapGet,
          List.find?_cons_of_neg _ (by simp [h2])]
        exact ih
      · have hkb : (kv.1 == k') = false := beq_eq_false_iff_ne.2 hk
        simp only [List.map_cons, hkb, ite_false]
        by_cases hq : kv.1 = k
        · rw [mapGet, List.find?_cons_of_pos _ (by simp [hq]), mapGet,
            List.find?_cons_of_pos _ (by simp [hq])]
          rfl
        · have hqb : (kv.1 == k) = false := beq_eq_false_iff_ne.2 hq
          rw [mapGet, List.find?_cons_of_neg _ (by simp [hqb]), mapGet,
            List.find?_cons_of_neg _ (by simp [hqb])]
          exact ih

theorem mapGet_append_single_ne (m : List (String × SectionEntry))
    (k k' : String) (v : SectionEntry) (hne : k ≠ k') :
    mapGet (m ++ [(k', v)]) k = mapGet m k := by
  induction m with
  | nil =>
      rw [List.nil_append, mapGet, List.find?_cons_of_neg _
        (by simp [beq_eq_false_iff_ne.2 (fun hx => hne hx.symm)])]
      rfl
  | cons kv rest ih =>
      rw [List.cons_append]
      by_cases hq : kv.1 = k
      · rw [mapGet, List.find?_cons_of_pos _ (by simp [hq]), mapGet,
          List.find?_cons_of_pos _ (by simp [hq])]
      · have hqb : (kv.1 == k) = false := beq_eq_false_iff_ne.2 hq
        rw [mapGet, List.find?_cons_of_neg _ (by simp [hqb]), mapGet,
          List.find?_cons_of_neg _ (by simp [hqb])]
        exact ih

theorem mapGet_mapSet_ne (m : List (String × SectionEntry)) (k k' : String)
    (v : SectionEntry) (hne : k ≠ k') :
    mapGet (mapSet m k' v) k = mapGet m k := by
  rw [mapSet]
  by_cases h : m.any (fun kv => kv.1 == k')
  · rw [if_pos h, mapGet_map_repl_ne m k k' v hne]
  · rw [if_neg h, mapGet_append_single_ne m k k' v hne]

theorem any_map_repl (m : List (String × SectionEntry)) (k : String)
    (v : SectionEntry) :
    (m.map (fun kv => if kv.1 == k then (k, v) else kv)).any
      (fun kv => kv.1 == k) = m.any (fun kv => kv.1 == k) := by
  induction m with
  | nil => rfl
  | cons kv rest ih =>
      by_cases hk : kv.1 = k
      · simp [hk, ih]
      · have hkb : (kv.1 == k) = false := beq_eq_false_iff_ne.2 hk
        simp only [List.map_cons, List.any_cons, hkb, Bool.false_eq_true,
          ite_false, Bool.false_or]
        exact ih

theorem mapSet_mapSet_self (m : List (String × SectionEntry)) (k : String)
    (v w : SectionEntry) :
    mapSet (mapSet m k v) k w = mapSet m k w := by
  by_cases h : m.any (fun kv => kv.1 == k)
  · have hv : mapSet m k v =
        m.map (fun kv => if kv.1 == k then (k, v) else kv) := by
      rw [mapSet, if_pos h]
    have hw : mapSet m k w =
        m.map (fun kv => if kv.1 == k then (k, w) else kv) := by
      rw [mapSet, if_pos h]
    rw [hv, mapSet, if_pos (by rw [any_map_repl]; exact h), List.map_map,
      hw]
    apply List.map_congr_left
    intro kv _
    by_cases hk : kv.1 = k
    · simp [hk]
    · have hkb : (kv.1 == k) = false := beq_eq_false_iff_ne.2 hk
      simp [hk, hkb]
  · have hv : mapSet m k v = m ++ [(k, v)] := by rw [mapSet, if_neg h]
    rw [hv, mapSet, if_pos (by simp [List.any_append]), List.map_append,
      mapSet, if_neg h]
    congr 1
    · have hall := List.any_eq_false.1 (Bool.not_eq_true _ ▸ h)
      calc m.map (fun kv => if kv.1 == k then (k, w) else kv)
          = m.map id := by
            apply List.map_congr_left
            intro kv hkv
            have hb2 : (kv.1 == k) = false := by
              rcases hb : (kv.1 == k) with _ | _
              · rfl
              · exact absurd hb (hall kv hkv)
            simp [hb2]
        _ = m := List.map_id m
    · simp

theorem updateSectionState_registered (name : String) (p : Patch)
    (st : UrlSyncState) (e : SectionEntry)
    (h : mapGet st.sections name = some e) :
    updateSectionState name p false st =
      { st with
        sections := mapSet st.sections name
          { defaults := e.defaults, current := mergeState e.current p }
        activeSection := some name
        pendingTimer := true } := by
  simp only [updateSectionState, h, scheduleUpdate]
  by_cases hp : st.pendingTimer
  · simp only [hp, Bool.not_true, Bool.false_eq_true, ite_false, if_false]
  · have hp2 : st.pendingTimer = false := Bool.not_eq_true _ ▸ hp
    simp only [hp2, Bool.not_false, Bool.false_eq_true, ite_false, ite_true]

theorem runBurst_eq (name : String) (ps : List Patch) :
    ∀ (st : UrlSyncState) (e : SectionEntry),
    mapGet st.sections name = some e → ps ≠ [] →
    runBurst name ps st =
      { st with
        sections := mapSet st.sections name
          { defaults := e.defaults
            current := ps.foldl mergeState e.current }
        activeSection := some name
        pendingTimer := true } := by
  induction ps with
  | nil => intro st e h hne; exact absurd rfl hne
  | cons p rest ih =>
      intro st e h hne
      by_cases hrest : rest = []
      · subst hrest
        rw [runBurst, List.foldl_cons, List.foldl_nil]
        rw [updateSectionState_registered name p st e h]
        simp only [List.foldl_cons, List.foldl_nil]
      · have hr1 : runBurst name (p :: rest) st =
            runBurst name rest (updateSectionState name p false st) := by
          rw [runBurst, runBurst, List.foldl_cons]
        rw [hr1, updateSectionState_registered name p st e h,
          ih _ ⟨e.defaults, mergeState e.current p⟩
            (mapGet_mapSet_self _ _ _) hrest]
        simp only [mapSet_mapSet_self, List.foldl_cons]

theorem flushUpdate_computed (st : UrlSyncState) (name : String)
    (e : SectionEntry) (ha : st.activeSection = some name)
    (hreg : mapGet st.sections name = some e) :
    flushUpdate st =
      if st.locationHash ≠ buildHash name e.current then
        { st with pendingTimer := false
                  locationHash := buildHash name e.current
                  writes := st.writes ++ [buildHash name e.current] }
      else { st with pendingTimer := false } := by
  simp only [flushUpdate, ha, hreg]

/-- C3: a burst of non-immediate `updateSectionState` calls performs no
history write while pending — only one timer is ever outstanding — and when
the window's timer fires there is exactly one `history.replaceState`
(the merged state's hash differing from `location.hash`), carrying the
shallow-merge of all the partial updates in order. -/
theorem debounce_coalesces_burst (name : String) (ps : List Patch)
    (st : UrlSyncState) (e : SectionEntry)
    (hreg : mapGet st.sections name = some e) (hne : ps ≠ [])
    (hch : st.locationHash ≠
      buildHash name (ps.foldl mergeState e.current)) :
    (runBurst name ps st).writes = st.writes ∧
    (runBurst name ps st).pendingTimer = true ∧
    (runBurst name ps st).locationHash = st.locationHash ∧
    (fireTimer (runBurst name ps st)).pendingTimer = false ∧
    (fireTimer (runBurst name ps st)).writes =
      st.writes ++ [buildHash name (ps.foldl mergeState e.current)] := by
  have hb := runBurst_eq name ps st e hreg hne
  have hf : fireTimer (runBurst name ps st) =
      { st with
        sections := mapSet st.sections name
          ⟨e.defaults, ps.foldl mergeState e.current⟩
        activeSection := some name
        pendingTimer := false
        locationHash := buildHash name (ps.foldl mergeState e.current)
        writes := st.writes ++
          [buildHash name (ps.foldl mergeState e.current)] } := by
    rw [hb, fireTimer, if_pos rfl,
      flushUpdate_computed _ name ⟨e.defaults, ps.foldl mergeState e.current⟩
        rfl (mapGet_mapSet_self _ _ _), if_pos hch]
  exact ⟨by rw [hb], by rw [hb], by rw [hb], by rw [hf], by rw [hf]⟩

/-- Witness for C3: five updates to the registered timeline section within
one window yield exactly one write, of the final merged hash. -/
theorem debounce_coalesces_burst_witness :
    (runBurst "timeline" exBurst exReg).writes = exReg.writes ∧
    (runBurst "timeline" exBurst exReg).pendingTimer = true ∧
    (runBurst "timeline" exBurst exReg).locationHash = exReg.locationHash ∧
    (fireTimer (runBurst "timeline" exBurst exReg)).pendingTimer = false ∧
    (fireTimer (runBurst "timeline" exBurst exReg)).writes =
      exReg.writes ++ [buildHash "timeline"
        (exBurst.foldl mergeState emptySectState)] :=
  debounce_coalesces_burst "timeline" exBurst exReg
    ⟨emptySectState, emptySectState⟩ (by decide) (by decide) (by decide)

/-- C8: a flush whose computed hash equals `location.hash` performs no
history write, and flushing twice with an unchanged computed hash produces
at most one `history.replaceState` in total (one exactly when the hash
initially differed). -/
theorem flush_change_detection (st : UrlSyncState) (name : String)
    (e : SectionEntry) (ha : st.activeSection = some name)
    (hreg : mapGet st.sections name = some e) :
    (buildHash name e.current = st.locationHash →
      flushUpdate st = { st with pendingTimer := false }) ∧
    (flushUpdate (flushUpdate st)).writes =
      st.writes ++
        (if st.locationHash = buildHash name e.current then []
         else [buildHash name e.current]) ∧
    (flushUpdate (flushUpdate st)).writes.length ≤ st.writes.length + 1 := by
  have h1 := flushUpdate_computed st name e ha hreg
  by_cases heq : st.locationHash = buildHash name e.current
  · have hno : ¬st.locationHash ≠ buildHash name e.current :=
      fun hx => hx heq
    rw [h1, if_neg hno]
    have h2 := flushUpdate_computed
      ⟨st.sections, st.activeSection, false, st.locationHash, st.writes⟩
      name e ha hreg
    refine ⟨fun _ => rfl, ?_, ?_⟩
    · rw [h2]
      simp [heq]
    · rw [h2]
      simp [heq]
  · rw [h1, if_pos heq]
    have h2 := flushUpdate_computed
      ⟨st.sections, st.activeSection, false, buildHash name e.current,
        st.writes ++ [buildHash name e.current]⟩
      name e ha hreg
    refine ⟨fun hx => absurd hx.symm heq, ?_, ?_⟩
    · rw [h2]
      simp [heq]
    · rw [h2]
      simp [heq]

/-- Witness for C8: flushing the active timeline section twice from an
unwritten URL produces exactly one write. -/
theorem flush_change_detection_witness :
    (buildHash "timeline" emptySectState = exActive.locationHash →
      flushUpdate exActive = { exActive with pendingTimer := false }) ∧
    (flushUpdate (flushUpdate exActive)).writes =
      exActive.writes ++
        (if exActive.locationHash = buildHash "timeline" emptySectState
         then [] else [buildHash "timeline" emptySectState]) ∧
    (flushUpdate (flushUpdate exActive)).writes.length ≤
      exActive.writes.length + 1 :=
  flush_change_detection exActive "timeline"
    ⟨emptySectState, emptySectState⟩ rfl rfl

/-- C4 counterexample: with registered defaults carrying `mode := "tag"`
and the hash `#timeline?foo=bar` naming the section with only an
unrecognized key, `initFromUrl` leaves the section's current state at the
parse baseline (`mode := "none"`), not at the registered defaults. -/
theorem initFromUrl_not_defaults :
    (mapGet ((initFromUrl c4reg).2).sections "timeline").map
      SectionEntry.current ≠
      some { project := none, tags := [], mode := "tag", group := none } := by
  decide

/-- C4 amended: when the hash is empty or does not name the registered
section, its current state stays at the registered defaults; when the hash
names the section but all four recognized query keys are missing (for
example only unrecognized keys are present), current is reset to the parse
baseline (project null, tags empty, mode "none", group null) — which
coincides with the registered defaults only when those defaults are that
baseline, as every register call site in the repository uses. -/
theorem initFromUrl_fallback (name : String) (defaults : SectState)
    (st : UrlSyncState) :
    ((strDrop1 st.locationHash).isEmpty = true ∨
        (splitStr '?' (strDrop1 st.locationHash)).headD "" ≠ name →
      (mapGet ((initFromUrl (registerSection name defaults st)).2).sections
          name).map SectionEntry.current = some defaults) ∧
    ((strDrop1 st.locationHash).isEmpty = false →
      (splitStr '?' (strDrop1 st.locationHash)).headD "" = name →
      paramsGet (((splitStr '?' (strDrop1 st.locationHash)).drop 1).headD "")
        "project" = none →
      paramsGet (((splitStr '?' (strDrop1 st.locationHash)).drop 1).headD "")
        "tags" = none →
      paramsGet (((splitStr '?' (strDrop1 st.locationHash)).drop 1).headD "")
        "mode" = none →
      paramsGet (((splitStr '?' (strDrop1 st.locationHash)).drop 1).headD "")
        "group" = none →
      (mapGet ((initFromUrl (registerSection name defaults st)).2).sections
          name).map SectionEntry.current = some emptySectState) ∧
    (mapGet ((initFromUrl c4reg).2).sections "timeline").map
      SectionEntry.current = some emptySectState := by
  refine ⟨?_, ?_, by decide⟩
  · intro h
    rcases h with h | h
    · simp only [initFromUrl, registerSection]
      rw [if_pos h]
      simp [mapGet_mapSet_self]
    · by_cases hemp : (strDrop1 st.locationHash).isEmpty = true
      · simp only [initFromUrl, registerSection]
        rw [if_pos hemp]
        simp [mapGet_mapSet_self]
      · have hfalse : (strDrop1 st.locationHash).isEmpty = false :=
          Bool.not_eq_true _ ▸ hemp
        cases hm : mapGet (mapSet st.sections name
            { defaults := defaults, current := defaults })
            ((splitStr '?' (strDrop1 st.locationHash)).headD "") with
        | none =>
            simp only [initFromUrl, registerSection, hfalse,
              Bool.false_eq_true, if_false, hm]
            simp [mapGet_mapSet_self]
        | some e2 =>
            simp only [initFromUrl, registerSection, hfalse,
              Bool.false_eq_true, if_false, hm]
            rw [mapGet_mapSet_ne _ name _ _ (fun hx => h hx.symm),
              mapGet_mapSet_self]
            rfl
  · intro hemp hname hp htg hmo hg
    simp only [initFromUrl, registerSection, hemp, Bool.false_eq_true,
      if_false, hname, mapGet_mapSet_self, parseQuery, hp, htg, hmo, hg]
    simp [emptySectState]

/-- Witness for C4 (amended): a hash naming a different section leaves the
freshly registered section at its non-baseline defaults, and a hash naming
the section with only the unrecognized key `foo` resets it to the
baseline. -/
theorem initFromUrl_fallback_witness :
    (mapGet ((initFromUrl (registerSection "featured"
        { project := none, tags := [], mode := "tag", group := none }
        { exUrlStart with
          locationHash := "#timeline?tags=AI" })).2).sections
      "featured").map SectionEntry.current =
      some { project := none, tags := [], mode := "tag", group := none } ∧
    (mapGet ((initFromUrl c4reg).2).sections "timeline").map
      SectionEntry.current = some emptySectState :=
  ⟨(initFromUrl_fallback "featured"
      { project := none, tags := [], mode := "tag", group := none }
      { exUrlStart with locationHash := "#timeline?tags=AI" }).1
      (Or.inr (by decide)),
   (initFromUrl_fallback "timeline"
      { project := none, tags := [], mode := "tag", group := none }
      { exUrlStart with locationHash := "#timeline?foo=bar" }).2.1
      (by decide) (by decide) (by decide) (by decide) (by decide)
      (by decide)⟩

end PortfolioSite
